import Mathlib

/-!
Verification of the Tetris game controller (`main.py`) of ParaDevOne/Tetris.

The controller (`Game` in `main.py`) is embedded directly.  Its collaborators
(`board.py`, `pieces.py`, `score.py`, `ui.py`) are not part of the sources at
hand; their operations are modelled from the design document (sections 3, 4.1,
4.2, 4.3 and 4.5), each such definition carrying a doc comment that starts
with `Modelled from the spec:`.

Conventions: machine integers are `Int`/`Nat`; the board grid is a list of
rows, each row a list of `Option Nat` cells (`none` = free, `some id` = locked
cell of piece kind `id`); pygame key codes become the inductive `Key`; event
timestamps (`pygame.time.get_ticks()`) are explicit `Int` parameters.
-/

/-- Modelled from the spec: the seven piece variants of the piece model
(`pieces.py`, section 3 / 4.1). -/
inductive Shape where
  | I | O | T | S | Z | J | L
deriving DecidableEq

/-- Modelled from the spec: the fixed per-variant per-rotation cell-offset
table of the piece model (section 3); rotation cycles modulo 4 (section 4.1).
The concrete offsets follow the standard tetromino shapes. -/
def Shape.offsets (sh : Shape) (r : Nat) : List (Int × Int) :=
  match sh, r % 4 with
  | .I, 0 => [(0,1),(1,1),(2,1),(3,1)]
  | .I, 1 => [(2,0),(2,1),(2,2),(2,3)]
  | .I, 2 => [(0,2),(1,2),(2,2),(3,2)]
  | .I, _ => [(1,0),(1,1),(1,2),(1,3)]
  | .O, _ => [(1,0),(2,0),(1,1),(2,1)]
  | .T, 0 => [(1,0),(0,1),(1,1),(2,1)]
  | .T, 1 => [(1,0),(1,1),(2,1),(1,2)]
  | .T, 2 => [(0,1),(1,1),(2,1),(1,2)]
  | .T, _ => [(1,0),(0,1),(1,1),(1,2)]
  | .S, 0 => [(1,0),(2,0),(0,1),(1,1)]
  | .S, 1 => [(1,0),(1,1),(2,1),(2,2)]
  | .S, 2 => [(1,1),(2,1),(0,2),(1,2)]
  | .S, _ => [(0,0),(0,1),(1,1),(1,2)]
  | .Z, 0 => [(0,0),(1,0),(1,1),(2,1)]
  | .Z, 1 => [(2,0),(1,1),(2,1),(1,2)]
  | .Z, 2 => [(0,1),(1,1),(1,2),(2,2)]
  | .Z, _ => [(1,0),(0,1),(1,1),(0,2)]
  | .J, 0 => [(0,0),(0,1),(1,1),(2,1)]
  | .J, 1 => [(1,0),(2,0),(1,1),(1,2)]
  | .J, 2 => [(0,1),(1,1),(2,1),(2,2)]
  | .J, _ => [(1,0),(1,1),(0,2),(1,2)]
  | .L, 0 => [(2,0),(0,1),(1,1),(2,1)]
  | .L, 1 => [(1,0),(1,1),(1,2),(2,2)]
  | .L, 2 => [(0,1),(1,1),(2,1),(0,2)]
  | .L, _ => [(0,0),(1,0),(1,1),(1,2)]

/-- Modelled from the spec: a numeric color/type identifier per variant
(section 3: "occupancy flag + color/type identifier"). -/
def shapeId : Shape → Nat
  | .I => 1 | .O => 2 | .T => 3 | .S => 4 | .Z => 5 | .J => 6 | .L => 7

/-- Modelled from the spec: a piece is a shape identifier, a rotation index,
and an anchor position in board coordinates (section 3). -/
structure Piece where
  shape : Shape
  rotation : Nat
  x : Int
  y : Int
deriving DecidableEq

/-- The absolute board cells occupied by a piece: anchor plus the offsets of
its rotation (section 3). -/
def Piece.cells (p : Piece) : List (Int × Int) :=
  (p.shape.offsets p.rotation).map (fun d => (p.x + d.1, p.y + d.2))

/-- Modelled from the spec: moving the active piece one column left. -/
def Piece.moveLeft (p : Piece) : Piece := { p with x := p.x - 1 }

/-- Modelled from the spec: moving the active piece one column right. -/
def Piece.moveRight (p : Piece) : Piece := { p with x := p.x + 1 }

/-- Modelled from the spec: moving the active piece one row down. -/
def Piece.moveDown (p : Piece) : Piece := { p with y := p.y + 1 }

/-- Modelled from the spec: rotation is modulo-4 cycling (section 4.1). -/
def Piece.rotate (p : Piece) : Piece := { p with rotation := (p.rotation + 1) % 4 }

/-- The standard board width (section 3: 10 columns). -/
def boardWidth : Nat := 10

/-- The standard board height (section 3: 20 rows). -/
def boardHeight : Nat := 20

/-- Modelled from the spec: the board is a fixed-size grid of cells with the
`level` and `lines_cleared` bookkeeping attributes (section 3). -/
structure Board where
  grid : List (List (Option Nat))
  level : Nat
  linesCleared : Nat
deriving DecidableEq

/-- An empty row of the grid. -/
def emptyRow : List (Option Nat) := List.replicate boardWidth none

/-- The board created at game start/restart: empty grid, level 1, no lines. -/
def Board.empty : Board :=
  { grid := List.replicate boardHeight emptyRow, level := 1, linesCleared := 0 }

/-- Whether the grid cell at (nonnegative) coordinates `(x, y)` is free. -/
def Board.cellFreeAt (b : Board) (x y : Int) : Bool :=
  ((b.grid.getD y.toNat []).getD x.toNat none).isNone

/-- Modelled from the spec: `is_valid_position(piece)` — all occupied cells
within horizontal bounds `[0, width)`, below `height` (cells above row 0 are
allowed for spawning), and not overlapping an occupied cell (section 4.3). -/
def Board.isValidPosition (b : Board) (p : Piece) : Bool :=
  p.cells.all fun c =>
    decide (0 ≤ c.1) && decide (c.1 < (boardWidth : Int)) &&
      decide (c.2 < (boardHeight : Int)) &&
      (decide (c.2 < 0) || b.cellFreeAt c.1 c.2)

/-- Writing a list of cells into the grid with a given identifier. -/
def lockCells (grid : List (List (Option Nat))) (cs : List (Int × Int)) (v : Nat) :
    List (List (Option Nat)) :=
  cs.foldl (fun gr c => gr.set c.2.toNat ((gr.getD c.2.toNat []).set c.1.toNat (some v))) grid

/-- Modelled from the spec: `add_piece(piece)` — fails (returns `none`) when
the piece's position is invalid at call time or a cell cannot be merged into
the grid (a cell above the top row); otherwise locks every occupied cell,
removes all full rows simultaneously, shifts the rest down, inserts fresh
empty rows at the top, updates `lines_cleared`, and recomputes `level` (one
increase every 10 cumulative lines, section 4.3).  Returns the new board and
the batched count of rows cleared by this single lock. -/
def Board.addPiece (b : Board) (p : Piece) : Option (Board × Nat) :=
  if b.isValidPosition p && p.cells.all (fun c => decide (0 ≤ c.2)) then
    let grid1 := lockCells b.grid p.cells (shapeId p.shape)
    let remaining := grid1.filter (fun row => !(row.all Option.isSome))
    let n := grid1.length - remaining.length
    let lines := b.linesCleared + n
    some ({ grid := List.replicate n emptyRow ++ remaining,
            level := 1 + lines / 10, linesCleared := lines }, n)
  else none

/-- Fuel-indexed descent loop of `hard_drop`: move down while the next
position is valid, counting the rows descended. -/
def hardDropAux (b : Board) (p : Piece) : Nat → Piece × Nat
  | 0 => (p, 0)
  | Nat.succ fuel =>
    if b.isValidPosition p.moveDown then
      let r := hardDropAux b p.moveDown fuel
      (r.1, r.2 + 1)
    else (p, 0)

/-- Modelled from the spec: `hard_drop(piece)` — repeatedly moves the piece
down while `is_valid_position` holds, stopping at the last valid row, and
returns the moved piece together with the number of rows descended
(section 4.3).  The fuel bounds the while loop: every variant occupies at
least one cell, and a valid position keeps every cell above row `height`, so
the loop always stops before the fuel runs out. -/
def Board.hardDrop (b : Board) (p : Piece) : Piece × Nat :=
  hardDropAux b p ((20 - p.y).toNat + 24)

/-- Modelled from the spec: one highscore record — name, score, level, lines
(section 3 / 6). -/
structure HSRecord where
  name : List Char
  score : Nat
  level : Nat
  lines : Nat
deriving DecidableEq

/-- Modelled from the spec: the score manager — current run score, the
ordered highscore list (sorted descending, capped), a persistence flush
counter and the last flushed snapshot (section 4.5). -/
structure ScoreManager where
  currentScore : Nat
  highscores : List HSRecord
  saveCount : Nat
  persisted : Option (List HSRecord)
deriving DecidableEq

/-- Modelled from the spec: the fixed cap of the highscore list
(section 3: "capped at a fixed maximum length"). -/
def maxHighscores : Nat := 10

/-- Modelled from the spec: `reset_score()` zeroes the current score at run
start (section 4.5). -/
def resetScore (sm : ScoreManager) : ScoreManager := { sm with currentScore := 0 }

/-- Modelled from the spec: the points awarded for one batched clear of
`rows` rows at a given level; the exact constants are policy (section 4.5),
chosen super-linear in the number of rows. -/
def clearPoints (rows level : Nat) : Nat :=
  ([0, 100, 300, 500, 800].getD rows 0) * level

/-- Reporting one batched line-clear event to the score manager. -/
def addClearPoints (sm : ScoreManager) (rows level : Nat) : ScoreManager :=
  { sm with currentScore := sm.currentScore + clearPoints rows level }

/-- Modelled from the spec: `is_highscore()` — whether the current score
would enter the persisted top-N list (section 4.5): the list is not yet full,
or the score beats some recorded entry. -/
def isHighscore (sm : ScoreManager) : Bool :=
  sm.highscores.length < maxHighscores || sm.highscores.any (fun r => r.score < sm.currentScore)

/-- Insertion into a list sorted descending by score: the new record goes in
front of the first strictly smaller entry. -/
def insertRecord (r : HSRecord) : List HSRecord → List HSRecord
  | [] => [r]
  | h :: t => if h.score < r.score then r :: h :: t else h :: insertRecord r t

/-- Modelled from the spec: `add_highscore(name, level, lines)` — inserts a
record carrying the current score, keeps the list sorted descending by score
and truncates it to the cap (section 4.5). -/
def addHighscore (sm : ScoreManager) (name : List Char) (level lines : Nat) : ScoreManager :=
  { sm with highscores :=
      (insertRecord ⟨name, sm.currentScore, level, lines⟩ sm.highscores).take maxHighscores }

/-- Modelled from the spec: `save_highscores()` flushes the highscore state
to durable storage (section 4.5); the flush is modelled as recording the
snapshot and counting the call. -/
def saveHighscores (sm : ScoreManager) : ScoreManager :=
  { sm with saveCount := sm.saveCount + 1, persisted := some sm.highscores }

/-- Modelled from the spec: a full 7-piece bag, one permutation of all seven
variants (section 4.2).  The randomized shuffle is replaced by a fixed
permutation; no claim depends on the drawn order. -/
def fullBag : List Shape := [.I, .O, .T, .S, .Z, .J, .L]

/-- Modelled from the spec: the piece generator state — the current bag and
the lookahead queue (section 3 / 4.2). -/
structure PieceGenerator where
  bag : List Shape
  queue : List Shape
deriving DecidableEq

/-- The lookahead length (`preview_count`, default 3 — set in `_init_game`). -/
def previewCount : Nat := 3

/-- Modelled from the spec: drawing one variant from the bag, reshuffling a
fresh full bag when it is empty (section 4.2). -/
def drawFromBag (g : PieceGenerator) : Shape × PieceGenerator :=
  match g.bag with
  | sh :: rest => (sh, { g with bag := rest })
  | [] => (Shape.I, { g with bag := [Shape.O, .T, .S, .Z, .J, .L] })

/-- Refilling the lookahead queue from the bag up to `previewCount` entries;
the fuel equals the number of draws needed. -/
def refillQueue : PieceGenerator → Nat → PieceGenerator
  | g, 0 => g
  | g, Nat.succ k =>
    if g.queue.length < previewCount then
      let d := drawFromBag g
      refillQueue { d.2 with queue := d.2.queue ++ [d.1] } k
    else g

/-- Modelled from the spec: a freshly drawn piece instantiated at the spawn
anchor (section 4.2), rotation 0, horizontally centered at the top row. -/
def spawnPiece (sh : Shape) : Piece := { shape := sh, rotation := 0, x := 3, y := 0 }

/-- Modelled from the spec: `get_next_piece()` — pops the front of the
lookahead queue, refills the queue from the bag, and returns the popped
variant instantiated at the spawn anchor; never fails (section 4.2). -/
def PieceGenerator.getNextPiece (g : PieceGenerator) : Piece × PieceGenerator :=
  match g.queue with
  | sh :: rest => (spawnPiece sh, refillQueue { g with queue := rest } previewCount)
  | [] =>
    let d := drawFromBag g
    (spawnPiece d.1, refillQueue d.2 previewCount)

/-- A fresh generator: full bag, lookahead queue filled to `previewCount`. -/
def PieceGenerator.init : PieceGenerator :=
  refillQueue { bag := fullBag, queue := [] } previewCount

/-- The controller states of `main.py` (`class GameState`). -/
inductive GameState where
  | menu | playing | paused | gameOver | rankings | settings
deriving DecidableEq

/-- The key codes the controller distinguishes: the fixed controls of
`_handle_game_events` / `_handle_game_over_events`, plus an opaque code for
every other key. -/
inductive Key where
  | left | right | up | down | space | pKey | escape | ret | backspace
  | other (code : Nat)
deriving DecidableEq

/-- A pygame input event: key-down (with the `event.unicode` text, at most
one character as pygame delivers it), key-up, or window close. -/
inductive Event where
  | keydown (k : Key) (uni : Option Char)
  | keyup (k : Key)
  | quit
deriving DecidableEq

/-- The controller state of `class Game` in `main.py`: the game-state tag,
the running flag, the engine components (board, generator, current piece,
score manager), the gravity and key-repeat bookkeeping of `_init_game`, the
player-name buffer, and the UI's selected menu option. -/
structure Game where
  state : GameState
  running : Bool
  board : Board
  gen : PieceGenerator
  currentPiece : Piece
  score : ScoreManager
  fallSpeed : Nat
  fallCounter : Nat
  softDropActive : Bool
  keyRepeatDelay : Int
  keyRepeatInterval : Int
  lastKeyTime : Int
  lastKey : Option Key
  playerName : List Char
  selectedOption : Nat
deriving DecidableEq

/-- `Game._init_game`: fresh board, fresh generator, first piece drawn,
fall speed 30, fall counter 0, soft drop off, key-repeat delay 170 ms and
interval 50 ms, no held key, score reset.  (The name buffer is not touched,
exactly as in the source.) -/
def initGame (g : Game) : Game :=
  let pq := PieceGenerator.init.getNextPiece
  { g with board := Board.empty, gen := pq.2, currentPiece := pq.1,
           fallSpeed := 30, fallCounter := 0, softDropActive := false,
           keyRepeatDelay := 170, keyRepeatInterval := 50,
           lastKeyTime := 0, lastKey := none,
           score := resetScore g.score }

/-- `Game.__init__` followed by `_init_game`: the initial controller state,
parameterized by the highscore list loaded at startup. -/
def mkGame (hs : List HSRecord) : Game :=
  initGame
    { state := GameState.menu, running := true,
      board := Board.empty, gen := PieceGenerator.init,
      currentPiece := spawnPiece Shape.I,
      score := { currentScore := 0, highscores := hs, saveCount := 0, persisted := none },
      fallSpeed := 30, fallCounter := 0, softDropActive := false,
      keyRepeatDelay := 170, keyRepeatInterval := 50, lastKeyTime := 0, lastKey := none,
      playerName := [], selectedOption := 0 }

/-- The tentative piece of `_apply_key_movement`: moved left, right, or
rotated according to the key; any other key moves nothing. -/
def tentativeMove (p : Piece) (k : Key) : Piece :=
  if k = Key.left then p.moveLeft
  else if k = Key.right then p.moveRight
  else if k = Key.up then p.rotate
  else p

/-- `Game._apply_key_movement`: apply the movement for the key, then check
`is_valid_position`; on collision restore the saved `x` and `y`, and — only
for the rotate key — the saved rotation index. -/
def applyKeyMovement (g : Game) (k : Key) : Game :=
  let moved := tentativeMove g.currentPiece k
  if g.board.isValidPosition moved then { g with currentPiece := moved }
  else
    { g with currentPiece :=
        { moved with x := g.currentPiece.x, y := g.currentPiece.y,
                     rotation := if k = Key.up then g.currentPiece.rotation
                                 else moved.rotation } }

/-- `Game._move_piece_down`: move the current piece one row down; when that
position collides, restore `y`, lock the piece with `add_piece` (game over on
failure), report the batched clear to the score manager, draw the next piece
from the generator, and signal game over when the fresh piece has no valid
position. -/
def movePieceDown (g : Game) : Game :=
  if g.board.isValidPosition g.currentPiece.moveDown then
    { g with currentPiece := g.currentPiece.moveDown }
  else
    match g.board.addPiece g.currentPiece with
    | none => { g with state := GameState.gameOver }
    | some (b, n) =>
      { g with board := b,
               score := addClearPoints g.score n b.level,
               currentPiece := (g.gen.getNextPiece).1,
               gen := (g.gen.getNextPiece).2,
               state := if b.isValidPosition (g.gen.getNextPiece).1 then g.state
                        else GameState.gameOver }

/-- `Game._perform_hard_drop`: drop the current piece with `Board.hard_drop`
(the returned distance is informational and unused), lock it with `add_piece`
(game over on failure), report the batched clear, draw the next piece, and
signal game over when the fresh piece has no valid position. -/
def performHardDrop (g : Game) : Game :=
  let dropped := (g.board.hardDrop g.currentPiece).1
  match g.board.addPiece dropped with
  | none => { g with currentPiece := dropped, state := GameState.gameOver }
  | some (b, n) =>
    { g with board := b,
             score := addClearPoints g.score n b.level,
             currentPiece := (g.gen.getNextPiece).1,
             gen := (g.gen.getNextPiece).2,
             state := if b.isValidPosition (g.gen.getNextPiece).1 then g.state
                      else GameState.gameOver }

/-- The key-repeat block at the top of `Game._update_game`: while a key is
recorded as held and more than `key_repeat_delay` ms have passed since
`last_key_time`, reapply its movement and set
`last_key_time = now - (key_repeat_interval - key_repeat_delay)`. -/
def keyRepeatStep (g : Game) (now : Int) : Game :=
  match g.lastKey with
  | some k =>
    if now - g.lastKeyTime > g.keyRepeatDelay then
      { applyKeyMovement g k with
          lastKeyTime := now - (g.keyRepeatInterval - g.keyRepeatDelay) }
    else g
  | none => g

/-- The effective fall interval of `Game._update_game`:
`max(min_fall_speed = 5, initial_fall_speed = 30 - (level - 1))`, divided by
4 while soft drop is active. -/
def effectiveFallSpeed (g : Game) : Int :=
  let lfs : Int := max 5 (30 - ((g.board.level : Int) - 1))
  if g.softDropActive then lfs / 4 else lfs

/-- `Game._update_game`: handle key repetition, increment the fall counter,
and when it has reached the effective fall interval attempt one descent
(`_move_piece_down`) and reset the counter to zero. -/
def updateGame (g : Game) (now : Int) : Game :=
  let g1 := keyRepeatStep g now
  if ((g1.fallCounter : Int) + 1) ≥ effectiveFallSpeed g1 then
    { movePieceDown { g1 with fallCounter := g1.fallCounter + 1 } with fallCounter := 0 }
  else { g1 with fallCounter := g1.fallCounter + 1 }

/-- `Game._update`: the per-frame update runs the gameplay update only in the
`PLAYING` state. -/
def update (g : Game) (now : Int) : Game :=
  if g.state = GameState.playing then updateGame g now else g

/-- The main-menu option list of the UI. -/
def mainMenuOptions : List String := ["Jugar", "Rankings", "Configuración", "Salir"]

/-- The pause-menu option list of the UI. -/
def pauseMenuOptions : List String := ["Continuar", "Reiniciar", "Salir al Menú"]

/-- Modelled from the spec: `ui.handle_menu_input` (`ui.py` is a thin I/O
wrapper, section 2) — arrow keys move the selection, the confirm key returns
the selected option's label; returns the action (if any) and the new
selection index. -/
def menuInput (e : Event) (options : List String) (sel : Nat) : Option String × Nat :=
  match e with
  | .keydown .up _ => (none, (sel + options.length - 1) % options.length)
  | .keydown .down _ => (none, (sel + 1) % options.length)
  | .keydown .ret _ => (some (options.getD sel ""), sel)
  | _ => (none, sel)

/-- `Game._handle_menu_events`: dispatch on the selected main-menu action. -/
def handleMenuEvents (g : Game) (e : Event) : Game :=
  let r := menuInput e mainMenuOptions g.selectedOption
  let g1 := { g with selectedOption := r.2 }
  match r.1 with
  | some a =>
    if a = "Jugar" then { initGame g1 with state := GameState.playing }
    else if a = "Rankings" then { g1 with selectedOption := 0, state := GameState.rankings }
    else if a = "Configuración" then { g1 with selectedOption := 0, state := GameState.settings }
    else if a = "Salir" then { g1 with running := false }
    else g1
  | none => g1

/-- `Game._handle_game_events`: pause, abandon to menu, hard drop (the
handler returns at once, recording nothing), soft-drop flag, and for every
other key-down the key is recorded for auto-repeat and its movement applied
immediately; key-up clears the soft-drop flag and the recorded key. -/
def handleGameEvents (g : Game) (e : Event) (now : Int) : Game :=
  match e with
  | .keydown k _ =>
    if k = Key.pKey then { g with state := GameState.paused, selectedOption := 0 }
    else if k = Key.escape then { g with state := GameState.menu, selectedOption := 0 }
    else if k = Key.space then performHardDrop g
    else
      let g1 := if k = Key.down then { g with softDropActive := true } else g
      applyKeyMovement { g1 with lastKey := some k, lastKeyTime := now } k
  | .keyup k =>
    let g1 := if k = Key.down then { g with softDropActive := false } else g
    if g1.lastKey = some k then { g1 with lastKey := none } else g1
  | .quit => g

/-- `Game._handle_pause_events`: dispatch on the selected pause-menu action. -/
def handlePauseEvents (g : Game) (e : Event) : Game :=
  let r := menuInput e pauseMenuOptions g.selectedOption
  let g1 := { g with selectedOption := r.2 }
  match r.1 with
  | some a =>
    if a = "Continuar" then { g1 with state := GameState.playing }
    else if a = "Reiniciar" then { initGame g1 with state := GameState.playing }
    else if a = "Salir al Menú" then { g1 with state := GameState.menu, selectedOption := 0 }
    else g1
  | none => g1

/-- The accepted name characters of `_handle_game_over_events`:
alphanumeric, space, hyphen, underscore. -/
def acceptedChar (c : Char) : Bool :=
  c.isAlphanum || c == ' ' || c == '-' || c == '_'

/-- The anonymous fallback name used when the buffer is empty on confirm. -/
def anonName : List Char := ['A', 'n', 'ó', 'n', 'i', 'm', 'o']

/-- `Game._handle_game_over_events`: everything is guarded by
`is_highscore()`.  Confirm saves the highscore (under the buffered name, or
the anonymous fallback when the buffer is empty) with the board's level and
lines, returns to the menu and clears the buffer; backspace deletes the last
character; any other key-down appends its unicode character when the buffer
is below 15 characters and the character is accepted. -/
def handleGameOverEvents (g : Game) (e : Event) : Game :=
  if isHighscore g.score then
    match e with
    | .keydown k u =>
      if k = Key.ret then
        { g with score := addHighscore g.score
                   (if g.playerName = [] then anonName else g.playerName)
                   g.board.level g.board.linesCleared,
                 state := GameState.menu, selectedOption := 0, playerName := [] }
      else if k = Key.backspace then { g with playerName := g.playerName.dropLast }
      else if g.playerName.length < 15 then
        match u with
        | some c => if acceptedChar c then { g with playerName := g.playerName ++ [c] } else g
        | none => g
      else g
    | _ => g
  else g

/-- `Game._handle_rankings_events`: escape returns to the menu. -/
def handleRankingsEvents (g : Game) (e : Event) : Game :=
  match e with
  | .keydown .escape _ => { g with state := GameState.menu, selectedOption := 0 }
  | _ => g

/-- `Game._handle_settings_events`: there is no configuration; any event
returns to the menu. -/
def handleSettingsEvents (g : Game) (_e : Event) : Game :=
  { g with state := GameState.menu, selectedOption := 0 }

/-- `Game._handle_events` for one event: a window-close event clears the
running flag; otherwise the event is routed to the handler of the current
state. -/
def handleEvent (g : Game) (e : Event) (now : Int) : Game :=
  match e with
  | .quit => { g with running := false }
  | _ =>
    match g.state with
    | .menu => handleMenuEvents g e
    | .playing => handleGameEvents g e now
    | .paused => handlePauseEvents g e
    | .gameOver => handleGameOverEvents g e
    | .rankings => handleRankingsEvents g e
    | .settings => handleSettingsEvents g e

/-- How the `try` block of `Game.run` can end: the loop leaves normally via
the running flag, a `KeyboardInterrupt` is caught, or another exception
escapes the loop body (and is re-raised after the `finally`). -/
inductive LoopExit where
  | normal (g : Game)
  | interrupted (g : Game)
  | failed (g : Game)

/-- The controller state at the moment the main loop ends. -/
def LoopExit.game : LoopExit → Game
  | .normal g => g
  | .interrupted g => g
  | .failed g => g

/-- The shutdown path of `Game.run`: whatever way the `try` block ended, the
`finally` clause calls `save_highscores()` once; only the uncaught-exception
exit re-raises (the returned flag). -/
def runShutdown (e : LoopExit) : Game × Bool :=
  match e with
  | .normal g => ({ g with score := saveHighscores g.score }, false)
  | .interrupted g => ({ g with score := saveHighscores g.score }, false)
  | .failed g => ({ g with score := saveHighscores g.score }, true)

/-- The controller states reachable from startup: the initial state (for any
loaded highscore list), closed under handling one input event and under one
per-frame update. -/
inductive Reachable : Game → Prop where
  | init (hs : List HSRecord) : Reachable (mkGame hs)
  | handle {g : Game} (h : Reachable g) (e : Event) (now : Int) :
      Reachable (handleEvent g e now)
  | tick {g : Game} (h : Reachable g) (now : Int) : Reachable (update g now)

/-- The player-name buffer invariant: at most 15 characters, every character
alphanumeric, space, hyphen, or underscore. -/
def nameInv (s : List Char) : Prop :=
  s.length ≤ 15 ∧ ∀ c ∈ s, acceptedChar c = true

theorem applyKeyMovement_playerName (g : Game) (k : Key) :
    (applyKeyMovement g k).playerName = g.playerName := by
  cases h : g.board.isValidPosition (tentativeMove g.currentPiece k) <;>
    simp [applyKeyMovement, h]

theorem applyKeyMovement_board (g : Game) (k : Key) :
    (applyKeyMovement g k).board = g.board := by
  cases h : g.board.isValidPosition (tentativeMove g.currentPiece k) <;>
    simp [applyKeyMovement, h]

theorem applyKeyMovement_gen (g : Game) (k : Key) :
    (applyKeyMovement g k).gen = g.gen := by
  cases h : g.board.isValidPosition (tentativeMove g.currentPiece k) <;>
    simp [applyKeyMovement, h]

theorem applyKeyMovement_softDropActive (g : Game) (k : Key) :
    (applyKeyMovement g k).softDropActive = g.softDropActive := by
  cases h : g.board.isValidPosition (tentativeMove g.currentPiece k) <;>
    simp [applyKeyMovement, h]

theorem applyKeyMovement_fallCounter (g : Game) (k : Key) :
    (applyKeyMovement g k).fallCounter = g.fallCounter := by
  cases h : g.board.isValidPosition (tentativeMove g.currentPiece k) <;>
    simp [applyKeyMovement, h]

theorem keyRepeatStep_board (g : Game) (now : Int) :
    (keyRepeatStep g now).board = g.board := by
  unfold keyRepeatStep
  rcases g.lastKey with _ | k
  · rfl
  · dsimp only
    split
    · exact applyKeyMovement_board g k
    · rfl

theorem keyRepeatStep_softDropActive (g : Game) (now : Int) :
    (keyRepeatStep g now).softDropActive = g.softDropActive := by
  unfold keyRepeatStep
  rcases g.lastKey with _ | k
  · rfl
  · dsimp only
    split
    · exact applyKeyMovement_softDropActive g k
    · rfl

theorem keyRepeatStep_fallCounter (g : Game) (now : Int) :
    (keyRepeatStep g now).fallCounter = g.fallCounter := by
  unfold keyRepeatStep
  rcases g.lastKey with _ | k
  · rfl
  · dsimp only
    split
    · exact applyKeyMovement_fallCounter g k
    · rfl

theorem keyRepeatStep_playerName (g : Game) (now : Int) :
    (keyRepeatStep g now).playerName = g.playerName := by
  unfold keyRepeatStep
  rcases g.lastKey with _ | k
  · rfl
  · dsimp only
    split
    · exact applyKeyMovement_playerName g k
    · rfl

theorem movePieceDown_playerName (g : Game) :
    (movePieceDown g).playerName = g.playerName := by
  cases h : g.board.isValidPosition g.currentPiece.moveDown
  · rcases h2 : g.board.addPiece g.currentPiece with _ | ⟨b, n⟩ <;>
      simp [movePieceDown, h, h2]
  · simp [movePieceDown, h]

theorem performHardDrop_playerName (g : Game) :
    (performHardDrop g).playerName = g.playerName := by
  rcases h : g.board.addPiece (g.board.hardDrop g.currentPiece).1 with _ | ⟨b, n⟩ <;>
    simp [performHardDrop, h]

theorem performHardDrop_lastKey (g : Game) :
    (performHardDrop g).lastKey = g.lastKey := by
  rcases h : g.board.addPiece (g.board.hardDrop g.currentPiece).1 with _ | ⟨b, n⟩ <;>
    simp [performHardDrop, h]

theorem updateGame_playerName (g : Game) (now : Int) :
    (updateGame g now).playerName = g.playerName := by
  unfold updateGame
  dsimp only
  split
  · rw [show ∀ h : Game, ({ movePieceDown h with fallCounter := 0 } : Game).playerName
          = (movePieceDown h).playerName from fun _ => rfl]
    rw [movePieceDown_playerName]
    exact keyRepeatStep_playerName g now
  · exact keyRepeatStep_playerName g now

/-- Claim C8: when the controller state is Menu, Paused, GameOver, Rankings,
or Settings, the per-frame update step leaves the whole controller state —
board grid, level, lines, current piece, score, fall counter, generator —
unchanged. -/
theorem update_noop_outside_playing (g : Game) (now : Int)
    (h : g.state = GameState.menu ∨ g.state = GameState.paused ∨
         g.state = GameState.gameOver ∨ g.state = GameState.rankings ∨
         g.state = GameState.settings) :
    update g now = g := by
  have hne : ¬ g.state = GameState.playing := by
    rcases h with h | h | h | h | h <;> rw [h] <;> intro hc <;> exact GameState.noConfusion hc
  unfold update
  exact if_neg hne

/-- Claim C8 witness: the per-frame update is the identity on the initial
(menu) controller state. -/
theorem update_noop_outside_playing_witness :
    update (mkGame []) 0 = mkGame [] :=
  update_noop_outside_playing (mkGame []) 0 (Or.inl rfl)

/-- Claim C7: every exit path of the main loop — normal termination,
`KeyboardInterrupt`, and any other exception escaping the loop body — runs
`save_highscores()` exactly once before `run` returns: the flush counter
increases by exactly one and the final highscore list is the flushed
snapshot. -/
theorem run_saves_on_every_exit (e : LoopExit) :
    (runShutdown e).1.score.saveCount = e.game.score.saveCount + 1
    ∧ (runShutdown e).1.score.persisted = some e.game.score.highscores := by
  cases e <;> exact ⟨rfl, rfl⟩

/-- Claim C10: a hard-drop key-down performs exactly one hard drop — the
handler returns `performHardDrop` directly without recording the key as the
held key, and the auto-repeat path (`_apply_key_movement`) can never lock a
piece or draw from the generator. -/
theorem hard_drop_not_repeated (g : Game) (u : Option Char) (now : Int) :
    handleGameEvents g (Event.keydown Key.space u) now = performHardDrop g
    ∧ (handleGameEvents g (Event.keydown Key.space u) now).lastKey = g.lastKey
    ∧ ∀ k : Key, (applyKeyMovement g k).board = g.board
        ∧ (applyKeyMovement g k).gen = g.gen := by
  refine ⟨rfl, ?_, fun k => ⟨applyKeyMovement_board g k, applyKeyMovement_gen g k⟩⟩
  show (performHardDrop g).lastKey = g.lastKey
  exact performHardDrop_lastKey g

/-- Claim C2: an attempted left-move, right-move or rotation whose resulting
placement fails `is_valid_position` leaves the controller — in particular the
active piece's `x`, `y` and rotation index — exactly as it was. -/
theorem invalid_attempt_reverts (g : Game) (k : Key)
    (h : g.board.isValidPosition (tentativeMove g.currentPiece k) = false) :
    applyKeyMovement g k = g := by
  simp only [applyKeyMovement, h, Bool.false_eq_true, if_false]
  cases k <;> rfl

/-- A playing state whose active piece is a vertical I piece hugging the
right wall: rotating it would put a cell outside the grid. -/
def wallGame : Game :=
  { mkGame [] with state := GameState.playing,
                   currentPiece := { shape := Shape.I, rotation := 1, x := 7, y := 0 } }

/-- Claim C2 witness: rotating a vertical I piece against the right wall is
rejected by `is_valid_position` and leaves rotation index and position
unchanged. -/
theorem invalid_attempt_reverts_witness :
    wallGame.board.isValidPosition (tentativeMove wallGame.currentPiece Key.up) = false
    ∧ applyKeyMovement wallGame Key.up = wallGame :=
  ⟨by decide, invalid_attempt_reverts wallGame Key.up (by decide)⟩

theorem keyRepeatStep_effectiveFallSpeed (g : Game) (now : Int) :
    effectiveFallSpeed (keyRepeatStep g now) = effectiveFallSpeed g := by
  unfold effectiveFallSpeed
  rw [keyRepeatStep_board, keyRepeatStep_softDropActive]

/-- Claim C3: each processed frame increments the fall counter by exactly 1;
the effective fall interval is `max(5, 30 - (level - 1))`, divided by 4 while
soft drop is held; when the incremented counter has reached that interval the
active piece attempts one descent (`_move_piece_down`) and the counter is
reset to zero whether or not the descent succeeded, and otherwise the frame
leaves only the key-repeat effects and the incremented counter. -/
theorem gravity_timing (g : Game) (now : Int) :
    effectiveFallSpeed g =
      (if g.softDropActive then (max 5 (30 - ((g.board.level : Int) - 1))) / 4
       else max 5 (30 - ((g.board.level : Int) - 1)))
    ∧ (((g.fallCounter : Int) + 1) < effectiveFallSpeed g →
        updateGame g now = { keyRepeatStep g now with fallCounter := g.fallCounter + 1 })
    ∧ (((g.fallCounter : Int) + 1) ≥ effectiveFallSpeed g →
        updateGame g now =
          { movePieceDown { keyRepeatStep g now with fallCounter := g.fallCounter + 1 } with
              fallCounter := 0 }) := by
  have hf := keyRepeatStep_fallCounter g now
  have heff := keyRepeatStep_effectiveFallSpeed g now
  refine ⟨rfl, ?_, ?_⟩
  · intro h
    simp only [updateGame, heff, hf]
    rw [if_neg (not_le.mpr h)]
  · intro h
    simp only [updateGame, heff, hf]
    rw [if_pos h]

/-- A playing state just below the gravity threshold: fresh game, counter 0,
level 1, soft drop off. -/
def slowFrameGame : Game := { mkGame [] with state := GameState.playing }

/-- A playing state exactly at the gravity threshold: counter 29 with an
effective interval of 30. -/
def dueFrameGame : Game :=
  { mkGame [] with state := GameState.playing, fallCounter := 29 }

/-- Claim C3 witness: on a fresh playing state the counter goes 0 → 1 with no
descent, and at counter 29 (interval 30) the frame attempts the descent and
resets the counter. -/
theorem gravity_timing_witness :
    ((slowFrameGame.fallCounter : Int) + 1) < effectiveFallSpeed slowFrameGame
    ∧ updateGame slowFrameGame 0 =
        { keyRepeatStep slowFrameGame 0 with fallCounter := slowFrameGame.fallCounter + 1 }
    ∧ updateGame dueFrameGame 0 =
        { movePieceDown
            { keyRepeatStep dueFrameGame 0 with fallCounter := dueFrameGame.fallCounter + 1 } with
            fallCounter := 0 } :=
  ⟨by decide, (gravity_timing slowFrameGame 0).2.1 (by decide),
    (gravity_timing dueFrameGame 0).2.2 (by decide)⟩

/-- The outcome the controller must reach in the very step that locks a
piece: with `p` the piece being locked, either `add_piece` failed and the
state is GameOver with the board untouched, or the locked board is installed,
the next piece drawn from the generator has become the current piece, and the
state is GameOver exactly when that fresh piece has no valid position. -/
def lockSpawnOutcome (g g' : Game) : Prop :=
  match g.board.addPiece g.currentPiece with
  | none =>
    g'.state = GameState.gameOver ∧ g'.board = g.board ∧ g'.gen = g.gen
      ∧ g'.currentPiece = g.currentPiece
  | some (b, _) =>
    g'.board = b ∧ g'.currentPiece = (g.gen.getNextPiece).1
      ∧ g'.gen = (g.gen.getNextPiece).2
      ∧ g'.state = (if b.isValidPosition (g.gen.getNextPiece).1 then g.state
                    else GameState.gameOver)

/-- Claim C1: when a gravity/soft-drop descent is blocked, `_move_piece_down`
performs lock, next-piece draw and spawn-validity check in that same single
step, and `_perform_hard_drop` does the same for the dropped piece within one
input-handling step: a lock failure or an invalid fresh spawn makes the state
GameOver at once, and otherwise the drawn piece becomes the current piece. -/
theorem lock_spawn_atomic (g : Game) :
    (g.board.isValidPosition g.currentPiece.moveDown = false →
      lockSpawnOutcome g (movePieceDown g))
    ∧ lockSpawnOutcome { g with currentPiece := (g.board.hardDrop g.currentPiece).1 }
        (performHardDrop g) := by
  constructor
  · intro h
    unfold lockSpawnOutcome movePieceDown
    rw [h]
    rcases h2 : g.board.addPiece g.currentPiece with _ | ⟨b, n⟩ <;>
      simp [h2]
  · unfold lockSpawnOutcome performHardDrop
    dsimp only
    rcases h2 : g.board.addPiece (g.board.hardDrop g.currentPiece).1 with _ | ⟨b, n⟩ <;>
      simp [h2]

/-- A playing state whose O piece rests on the floor: the next descent is
blocked and the piece locks. -/
def blockedGame : Game :=
  { mkGame [] with state := GameState.playing,
                   currentPiece := { shape := Shape.O, rotation := 0, x := 3, y := 18 } }

/-- Claim C1 witness: on a floor-resting piece the descent is blocked and the
lock/draw/spawn-check outcome holds in that single step. -/
theorem lock_spawn_atomic_witness :
    blockedGame.board.isValidPosition blockedGame.currentPiece.moveDown = false
    ∧ lockSpawnOutcome blockedGame (movePieceDown blockedGame) :=
  ⟨by decide, (lock_spawn_atomic blockedGame).1 (by decide)⟩

/-- A playing state with the left-arrow key held since time 0 ms: key-repeat
delay 170 ms, interval 50 ms, piece free to move left. -/
def heldKeyGame : Game :=
  { mkGame [] with state := GameState.playing, lastKey := some Key.left, lastKeyTime := 0,
                   currentPiece := { shape := Shape.T, rotation := 0, x := 3, y := 0 } }

/-- Claim C4, evaluation at the failing input: the first auto-repeat fires at
171 ms and stores `last_key_time = 171 - (50 - 170) = 291`; at 221 ms — 50 ms
after the first repeat, where the claim expects the next one — nothing fires,
nor at 461 ms; the next repeat only fires at 462 ms, about 291 ms after the
first.  The code's `current_time - (key_repeat_interval - key_repeat_delay)`
adds 120 ms instead of subtracting it. -/
theorem key_repeat_interval_eval :
    (updateGame heldKeyGame 171).currentPiece.x = 2
    ∧ (updateGame heldKeyGame 171).lastKeyTime = 291
    ∧ (updateGame (updateGame heldKeyGame 171) 221).currentPiece.x = 2
    ∧ (updateGame (updateGame heldKeyGame 171) 461).currentPiece.x = 2
    ∧ (updateGame (updateGame heldKeyGame 171) 462).currentPiece.x = 1 := by
  decide

theorem insertRecord_length (r : HSRecord) (l : List HSRecord) :
    (insertRecord r l).length = l.length + 1 := by
  induction l with
  | nil => rfl
  | cons h t ih =>
    unfold insertRecord
    split
    · rfl
    · simp only [List.length_cons, ih]

theorem mem_insertRecord (r : HSRecord) (l : List HSRecord) : r ∈ insertRecord r l := by
  induction l with
  | nil => exact List.Mem.head _
  | cons h t ih =>
    unfold insertRecord
    split
    · exact List.Mem.head _
    · exact List.Mem.tail _ ih

theorem mem_insertRecord_take (r : HSRecord) (l : List HSRecord) (n : Nat)
    (hlen : l.length ≤ n) (hw : ∃ a ∈ l, a.score < r.score) :
    r ∈ (insertRecord r l).take n := by
  induction l generalizing n with
  | nil =>
    rcases hw with ⟨a, ha, _⟩
    cases ha
  | cons h t ih =>
    cases n with
    | zero => simp at hlen
    | succ m =>
      unfold insertRecord
      by_cases hc : h.score < r.score
      · rw [if_pos hc, List.take_succ_cons]
        exact List.Mem.head _
      · rw [if_neg hc, List.take_succ_cons]
        rcases hw with ⟨a, ha, hsc⟩
        rcases List.mem_cons.mp ha with rfl | hat
        · exact absurd hsc hc
        · exact List.Mem.tail _
            (ih m (by simp only [List.length_cons] at hlen; omega) ⟨a, hat, hsc⟩)

theorem mem_addHighscore (sm : ScoreManager) (nm : List Char) (lv ln : Nat)
    (hq : isHighscore sm = true) (hlen : sm.highscores.length ≤ maxHighscores) :
    (⟨nm, sm.currentScore, lv, ln⟩ : HSRecord) ∈ (addHighscore sm nm lv ln).highscores := by
  unfold isHighscore at hq
  simp only [Bool.or_eq_true, decide_eq_true_eq, List.any_eq_true] at hq
  show (⟨nm, sm.currentScore, lv, ln⟩ : HSRecord) ∈
    (insertRecord ⟨nm, sm.currentScore, lv, ln⟩ sm.highscores).take maxHighscores
  rcases hq with hq | hq
  · rw [List.take_of_length_le]
    · exact mem_insertRecord _ _
    · rw [insertRecord_length]
      exact hq
  · exact mem_insertRecord_take _ _ _ hlen hq

theorem handleEvent_gameOver_ret (g : Game) (now : Int) (u : Option Char)
    (hst : g.state = GameState.gameOver) (hq : isHighscore g.score = true) :
    handleEvent g (Event.keydown Key.ret u) now =
      { g with score := addHighscore g.score
                 (if g.playerName = [] then anonName else g.playerName)
                 g.board.level g.board.linesCleared,
               state := GameState.menu, selectedOption := 0, playerName := [] } := by
  simp [handleEvent, hst, handleGameOverEvents, hq]

theorem handleEvent_gameOver_noHighscore (g : Game) (now : Int) (e : Event)
    (hst : g.state = GameState.gameOver) (hq : isHighscore g.score = false)
    (hne : e ≠ Event.quit) :
    handleEvent g e now = g := by
  cases e with
  | quit => exact absurd rfl hne
  | keydown k u => simp [handleEvent, hst, handleGameOverEvents, hq]
  | keyup k => simp [handleEvent, hst, handleGameOverEvents, hq]

/-- Claim C5 (amended): in the GameOver state with a qualifying score, the
confirm key records the highscore (under the buffered name, with the board's
level and lines) and in the same step returns to the menu and clears the name
buffer; with a non-qualifying score the confirm key is ignored and the
controller stays in GameOver. -/
theorem game_over_confirm (g : Game) (now : Int) (u : Option Char)
    (hst : g.state = GameState.gameOver) :
    (isHighscore g.score = true →
      handleEvent g (Event.keydown Key.ret u) now =
        { g with score := addHighscore g.score
                   (if g.playerName = [] then anonName else g.playerName)
                   g.board.level g.board.linesCleared,
                 state := GameState.menu, selectedOption := 0, playerName := [] })
    ∧ (isHighscore g.score = false →
        handleEvent g (Event.keydown Key.ret u) now = g) := by
  constructor
  · intro hq
    exact handleEvent_gameOver_ret g now u hst hq
  · intro hq
    exact handleEvent_gameOver_noHighscore g now _ hst hq (by intro hc; cases hc)

/-- A highscore list already full of scores above zero. -/
def fullTen : List HSRecord := List.replicate 10 ⟨['X'], 100, 1, 0⟩

/-- A game-over state whose finished score does not qualify: the list is full
and every entry beats the current score. -/
def stuckGameOver : Game := { mkGame fullTen with state := GameState.gameOver }

/-- Claim C5 counterexample: with a non-qualifying score, pressing the
confirm key in the GameOver state does not transition the controller to the
Menu state — the handler ignores the event entirely. -/
theorem game_over_confirm_counterexample :
    stuckGameOver.state = GameState.gameOver
    ∧ (handleEvent stuckGameOver (Event.keydown Key.ret none) 0).state ≠ GameState.menu := by
  decide

/-- A game-over state with a qualifying score and a non-empty name buffer. -/
def qualGameOver : Game :=
  { mkGame [] with state := GameState.gameOver, playerName := ['B', 'o', 'b'] }

/-- Claim C5 witness: both branches at concrete states — the qualifying
confirm saves and returns to the menu clearing the buffer; the non-qualifying
confirm leaves the state untouched. -/
theorem game_over_confirm_witness :
    handleEvent qualGameOver (Event.keydown Key.ret none) 0 =
      { qualGameOver with
          score := addHighscore qualGameOver.score
                     (if qualGameOver.playerName = [] then anonName
                      else qualGameOver.playerName)
                     qualGameOver.board.level qualGameOver.board.linesCleared,
          state := GameState.menu, selectedOption := 0, playerName := [] }
    ∧ handleEvent stuckGameOver (Event.keydown Key.ret none) 0 = stuckGameOver :=
  ⟨(game_over_confirm qualGameOver 0 none rfl).1 (by decide),
   (game_over_confirm stuckGameOver 0 none rfl).2 (by decide)⟩

/-- Claim C9: confirming a qualifying game-over entry with an empty name
buffer stores the highscore record under the name "Anónimo", not under the
empty name — and that record is genuinely present in the resulting list. -/
theorem anonymous_highscore (g : Game) (now : Int) (u : Option Char)
    (hst : g.state = GameState.gameOver) (hq : isHighscore g.score = true)
    (hemp : g.playerName = []) :
    (handleEvent g (Event.keydown Key.ret u) now).score =
      addHighscore g.score anonName g.board.level g.board.linesCleared
    ∧ (g.score.highscores.length ≤ maxHighscores →
        (⟨anonName, g.score.currentScore, g.board.level, g.board.linesCleared⟩ : HSRecord) ∈
          (handleEvent g (Event.keydown Key.ret u) now).score.highscores) := by
  rw [handleEvent_gameOver_ret g now u hst hq, hemp]
  exact ⟨rfl, fun hlen => mem_addHighscore g.score anonName _ _ hq hlen⟩

/-- A qualifying game-over state whose name buffer is empty. -/
def emptyNameGameOver : Game := { mkGame [] with state := GameState.gameOver }

/-- Claim C9 witness: on a concrete qualifying game-over state with an empty
buffer, the saved record is named "Anónimo" and sits in the final list. -/
theorem anonymous_highscore_witness :
    (handleEvent emptyNameGameOver (Event.keydown Key.ret none) 0).score =
      addHighscore emptyNameGameOver.score anonName
        emptyNameGameOver.board.level emptyNameGameOver.board.linesCleared
    ∧ (⟨anonName, emptyNameGameOver.score.currentScore, emptyNameGameOver.board.level,
          emptyNameGameOver.board.linesCleared⟩ : HSRecord) ∈
        (handleEvent emptyNameGameOver (Event.keydown Key.ret none) 0).score.highscores :=
  ⟨(anonymous_highscore emptyNameGameOver 0 none rfl (by decide) rfl).1,
   (anonymous_highscore emptyNameGameOver 0 none rfl (by decide) rfl).2 (by decide)⟩

theorem mem_of_mem_dropLast {α : Type} {c : α} : ∀ {l : List α}, c ∈ l.dropLast → c ∈ l
  | [], h => by simp at h
  | [_], h => by simp at h
  | _ :: _ :: _, h => by
    rw [show ∀ (a b : α) (t : List α), (a :: b :: t).dropLast = a :: (b :: t).dropLast
          from fun _ _ _ => rfl] at h
    rcases List.mem_cons.mp h with rfl | h2
    · exact List.Mem.head _
    · exact List.Mem.tail _ (mem_of_mem_dropLast h2)

theorem nameInv_dropLast {s : List Char} (h : nameInv s) : nameInv s.dropLast := by
  refine ⟨?_, ?_⟩
  · rw [List.length_dropLast]
    have := h.1
    omega
  · intro c hc
    exact h.2 c (mem_of_mem_dropLast hc)

theorem nameInv_append {s : List Char} {c : Char} (h : nameInv s)
    (hlen : s.length < 15) (hc : acceptedChar c = true) : nameInv (s ++ [c]) := by
  refine ⟨?_, ?_⟩
  · rw [List.length_append, List.length_singleton]
    omega
  · intro d hd
    rcases List.mem_append.mp hd with hd | hd
    · exact h.2 d hd
    · rw [List.mem_singleton.mp hd]
      exact hc

theorem handleGameOverEvents_nameInv (g : Game) (e : Event)
    (h : nameInv g.playerName) : nameInv (handleGameOverEvents g e).playerName := by
  by_cases hq : isHighscore g.score = true
  · cases e with
    | keydown k u =>
      by_cases h1 : k = Key.ret
      · simp only [handleGameOverEvents, hq, if_true, if_pos h1]
        exact ⟨Nat.zero_le _, fun c hc => absurd hc (List.not_mem_nil c)⟩
      · by_cases h2 : k = Key.backspace
        · simp only [handleGameOverEvents, hq, if_true, if_neg h1, if_pos h2]
          exact nameInv_dropLast h
        · by_cases h3 : g.playerName.length < 15
          · cases u with
            | none =>
              simp only [handleGameOverEvents, hq, if_true, if_neg h1, if_neg h2, if_pos h3]
              exact h
            | some c =>
              by_cases h4 : acceptedChar c = true
              · simp only [handleGameOverEvents, hq, if_true, if_neg h1, if_neg h2,
                  if_pos h3, if_pos h4]
                exact nameInv_append h h3 h4
              · simp only [handleGameOverEvents, hq, if_true, if_neg h1, if_neg h2,
                  if_pos h3, if_neg h4]
                exact h
          · simp only [handleGameOverEvents, hq, if_true, if_neg h1, if_neg h2, if_neg h3]
            exact h
    | keyup k =>
      simp only [handleGameOverEvents, hq, if_true]
      exact h
    | quit =>
      simp only [handleGameOverEvents, hq, if_true]
      exact h
  · simp only [handleGameOverEvents, if_neg hq]
    exact h

theorem handleMenuEvents_playerName (g : Game) (e : Event) :
    (handleMenuEvents g e).playerName = g.playerName := by
  rcases h : (menuInput e mainMenuOptions g.selectedOption).1 with _ | a
  · simp only [handleMenuEvents, h]
  · simp only [handleMenuEvents, h]
    split_ifs <;> rfl

theorem handlePauseEvents_playerName (g : Game) (e : Event) :
    (handlePauseEvents g e).playerName = g.playerName := by
  rcases h : (menuInput e pauseMenuOptions g.selectedOption).1 with _ | a
  · simp only [handlePauseEvents, h]
  · simp only [handlePauseEvents, h]
    split_ifs <;> rfl

theorem handleRankingsEvents_playerName (g : Game) (e : Event) :
    (handleRankingsEvents g e).playerName = g.playerName := by
  cases e with
  | keydown k u => cases k <;> rfl
  | keyup k => rfl
  | quit => rfl

theorem handleSettingsEvents_playerName (g : Game) (e : Event) :
    (handleSettingsEvents g e).playerName = g.playerName := rfl

theorem handleGameEvents_playerName (g : Game) (e : Event) (now : Int) :
    (handleGameEvents g e now).playerName = g.playerName := by
  cases e with
  | keydown k u =>
    simp only [handleGameEvents]
    split_ifs <;>
      first
        | rfl
        | exact performHardDrop_playerName g
        | simp [applyKeyMovement_playerName]
  | keyup k =>
    simp only [handleGameEvents]
    split_ifs <;> rfl
  | quit => rfl

theorem update_playerName (g : Game) (now : Int) :
    (update g now).playerName = g.playerName := by
  unfold update
  split
  · exact updateGame_playerName g now
  · rfl

theorem handleEvent_not_quit (g : Game) (e : Event) (now : Int) (hne : e ≠ Event.quit) :
    handleEvent g e now =
      (match g.state with
       | .menu => handleMenuEvents g e
       | .playing => handleGameEvents g e now
       | .paused => handlePauseEvents g e
       | .gameOver => handleGameOverEvents g e
       | .rankings => handleRankingsEvents g e
       | .settings => handleSettingsEvents g e) := by
  cases e with
  | quit => exact absurd rfl hne
  | keydown k u => rfl
  | keyup k => rfl

theorem handleEvent_nameInv (g : Game) (e : Event) (now : Int)
    (h : nameInv g.playerName) : nameInv (handleEvent g e now).playerName := by
  by_cases hq : e = Event.quit
  · subst hq
    exact h
  · rw [handleEvent_not_quit g e now hq]
    cases g.state
    · show nameInv (handleMenuEvents g e).playerName
      rw [handleMenuEvents_playerName]
      exact h
    · show nameInv (handleGameEvents g e now).playerName
      rw [handleGameEvents_playerName]
      exact h
    · show nameInv (handlePauseEvents g e).playerName
      rw [handlePauseEvents_playerName]
      exact h
    · exact handleGameOverEvents_nameInv g e h
    · show nameInv (handleRankingsEvents g e).playerName
      rw [handleRankingsEvents_playerName]
      exact h
    · show nameInv (handleSettingsEvents g e).playerName
      rw [handleSettingsEvents_playerName]
      exact h

/-- Claim C6: in every reachable controller state the player-name buffer has
at most 15 characters, all alphanumeric/space/hyphen/underscore; during
qualifying game-over name entry a key-down appends its character exactly when
the character is accepted and the buffer is below the cap, and backspace
removes exactly the last character. -/
theorem name_buffer_invariant :
    (∀ g : Game, Reachable g → nameInv g.playerName)
    ∧ (∀ (g : Game) (k : Key) (c : Char) (now : Int),
        g.state = GameState.gameOver → isHighscore g.score = true →
        k ≠ Key.ret → k ≠ Key.backspace →
        handleEvent g (Event.keydown k (some c)) now =
          (if g.playerName.length < 15 ∧ acceptedChar c = true
           then { g with playerName := g.playerName ++ [c] } else g))
    ∧ (∀ (g : Game) (u : Option Char) (now : Int),
        g.state = GameState.gameOver → isHighscore g.score = true →
        handleEvent g (Event.keydown Key.backspace u) now =
          { g with playerName := g.playerName.dropLast }) := by
  refine ⟨?_, ?_, ?_⟩
  · intro g hg
    induction hg with
    | init hs => exact ⟨Nat.zero_le _, fun c hc => absurd hc (List.not_mem_nil c)⟩
    | handle hr e now ih => exact handleEvent_nameInv _ e now ih
    | tick hr now ih =>
      rw [update_playerName]
      exact ih
  · intro g k c now hst hq hret hback
    by_cases h3 : g.playerName.length < 15 <;> by_cases h4 : acceptedChar c = true <;>
      simp [handleEvent, hst, handleGameOverEvents, hq, hret, hback, h3, h4]
  · intro g u now hst hq
    simp [handleEvent, hst, handleGameOverEvents, hq]

/-- A qualifying game-over state used to exercise name entry. -/
def entryGameOver : Game := { mkGame [] with state := GameState.gameOver }

/-- Claim C6 witness: the invariant at the initial state, one concrete
append, and one concrete backspace. -/
theorem name_buffer_invariant_witness :
    nameInv (mkGame []).playerName
    ∧ handleEvent entryGameOver (Event.keydown (Key.other 97) (some 'a')) 0 =
        (if entryGameOver.playerName.length < 15 ∧ acceptedChar 'a' = true
         then { entryGameOver with playerName := entryGameOver.playerName ++ ['a'] }
         else entryGameOver)
    ∧ handleEvent entryGameOver (Event.keydown Key.backspace none) 0 =
        { entryGameOver with playerName := entryGameOver.playerName.dropLast } :=
  ⟨name_buffer_invariant.1 (mkGame []) (Reachable.init []),
   name_buffer_invariant.2.1 entryGameOver (Key.other 97) 'a' 0 rfl (by decide)
     (by decide) (by decide),
   name_buffer_invariant.2.2 entryGameOver none 0 rfl (by decide)⟩
